import Mathlib

/-
Shallow embedding of npm-global-exec (src/index.js): a just-in-time npm
package installer and launcher.  Pure functions below mirror the source
line by line; filesystem state is modelled as an association list from
absolute paths to file contents, subprocess outcomes are explicit inputs.
-/

set_option autoImplicit false

namespace NpmGlobalExec

/-! ## Path model

The source uses Node's path.join (POSIX flavour on the platforms the
claims concern).  We model strings as their character lists and implement
join as Node does: drop empty segments, join with a slash, then normalize
(drop redundant slashes and dot segments, resolve dot-dot segments). -/

/-- Splits a character list at every occurrence of the separator. -/
def splitChar (sep : Char) : List Char → List (List Char)
  | [] => [[]]
  | x :: xs =>
    match splitChar sep xs with
    | [] => [[x]]
    | g :: gs => if x = sep then [] :: g :: gs else (x :: g) :: gs

/-- Joins chunks with a single separator character between them. -/
def intercalateSep (sep : Char) : List (List Char) → List Char
  | [] => []
  | [g] => g
  | g :: gs => g ++ sep :: intercalateSep sep gs

/-- Resolves dot-dot segments the way Node's path normalization does,
accumulating processed segments in reverse. -/
def resolveDotsAux (isAbs : Bool) (acc : List (List Char)) :
    List (List Char) → List (List Char)
  | [] => acc.reverse
  | s :: rest =>
    if s = ['.', '.'] then
      match acc with
      | [] =>
        if isAbs then resolveDotsAux isAbs [] rest
        else resolveDotsAux isAbs [s] rest
      | t :: ts =>
        if t = ['.', '.'] then resolveDotsAux isAbs (s :: t :: ts) rest
        else resolveDotsAux isAbs ts rest
    else resolveDotsAux isAbs (s :: acc) rest

/-- Character-list core of Node's path.join: drop empty parts, join with
a slash, split into segments, drop empty and single-dot segments, resolve
dot-dot segments, and reassemble. -/
def pathJoinL (parts : List (List Char)) : List Char :=
  let nonempty := parts.filter (fun p => p ≠ [])
  if nonempty = [] then ['.']
  else
    let joined := intercalateSep '/' nonempty
    let isAbs := joined.head? = some '/'
    let segs := (splitChar '/' joined).filter (fun s => s ≠ [] ∧ s ≠ ['.'])
    let body := intercalateSep '/' (resolveDotsAux isAbs [] segs)
    if isAbs then '/' :: body
    else if body = [] then ['.'] else body

/-- Models Node's path.join on strings. -/
def pathJoin (parts : List String) : String :=
  String.mk (pathJoinL (parts.map String.data))

/-- Mirrors src/index.js line 9: the fixed install directory under the
user's home directory. -/
def INSTALL_DIR (homedir : String) : String :=
  pathJoin [homedir, "cloudbase-mcp"]

/-- Mirrors src/index.js line 10: the append-only install log file. -/
def LOG_FILE (homedir : String) : String :=
  pathJoin [INSTALL_DIR homedir, "npm-install.log"]

/-! ## Canonical package name (src/index.js lines 160-175)

The executePackageBin function first strips a trailing version suffix
from the caller's package specifier. -/

/-- Mirrors JavaScript String.prototype.lastIndexOf for a single
character: the index of the last occurrence, or -1 when absent. -/
def lastIndexOf (c : Char) : List Char → Int
  | [] => -1
  | x :: xs =>
    let r := lastIndexOf c xs
    if 0 ≤ r then r + 1
    else if x = c then 0 else -1

/-- Mirrors src/index.js lines 160-175: derive the canonical (actual)
package name from a specifier.  A specifier starting with an at sign
keeps everything before the last at sign when its index is positive,
otherwise stays whole; any other specifier keeps everything before the
first at sign (JavaScript split at the at sign, first chunk). -/
def canonicalNameL (s : List Char) : List Char :=
  if s.head? = some '@' then
    if 0 < lastIndexOf '@' s then s.take (lastIndexOf '@' s).toNat else s
  else
    s.takeWhile (fun ch => ch != '@')

/-- String-level wrapper of the canonical-name derivation. -/
def canonicalName (s : String) : String :=
  String.mk (canonicalNameL s.data)

/-! ## Filesystem model

Only files are tracked; a directory exists exactly when some tracked
file lies at or below it.  This is enough for every claim. -/

/-- A filesystem snapshot: file path paired with its byte content. -/
abbrev FileSystem := List (String × String)

/-- Looks up the content of a file by exact path. -/
def lookupFile (p : String) : FileSystem → Option String
  | [] => none
  | (k, v) :: fs => if p = k then some v else lookupFile p fs

/-- Mirrors fs.existsSync on a file path. -/
def fileExists (fs : FileSystem) (p : String) : Bool :=
  (lookupFile p fs).isSome

/-- Whether path p equals d or lies strictly below directory d. -/
def underPath (d p : String) : Bool :=
  p == d || List.isPrefixOf (d ++ "/").data p.data

/-- Mirrors fs.existsSync on a directory path in the files-only model. -/
def dirExists (fs : FileSystem) (d : String) : Bool :=
  fs.any (fun e => underPath d e.1)

/-! ## Workspace manager (src/index.js lines 29-53) -/

/-- Exact content written at src/index.js line 44: the stringified
default workspace manifest with two-space indentation. -/
def packageJsonContent : String :=
  "\x7b\n  \"name\": \"cloudbase-mcp-packages\",\n  \"version\": \"1.0.0\",\n  \"description\": \"User directory for npm-global-exec packages\",\n  \"private\": true,\n  \"dependencies\": \x7b\x7d\n\x7d"

/-- Exact content written at src/index.js lines 50-51: the registry
configuration pointing at the mirror endpoint. -/
def npmrcContent : String :=
  "registry=https://mirrors.cloud.tencent.com/npm/\n"

/-- The skip-if-exists write pattern used for both seed files. -/
def writeFileSyncIfAbsent (p content : String) (fs : FileSystem) : FileSystem :=
  if fileExists fs p then fs else (p, content) :: fs

/-- Mirrors src/index.js lines 35-45: seed package.json when absent. -/
def ensurePackageJson (installDir : String) (fs : FileSystem) : FileSystem :=
  writeFileSyncIfAbsent (pathJoin [installDir, "package.json"]) packageJsonContent fs

/-- Mirrors src/index.js lines 48-52: seed the .npmrc file when absent. -/
def ensureNpmrc (installDir : String) (fs : FileSystem) : FileSystem :=
  writeFileSyncIfAbsent (pathJoin [installDir, ".npmrc"]) npmrcContent fs

/-- Mirrors src/index.js lines 29-53 (directory creation is implicit in
the files-only model): seed package.json, then the .npmrc file. -/
def ensureInstallDirectorySilent (installDir : String) (fs : FileSystem) : FileSystem :=
  ensureNpmrc installDir (ensurePackageJson installDir fs)

/-! ## Installer retry policy (src/index.js lines 55-138) -/

/-- Mirrors src/index.js lines 135-138: exit code 190 (directory not
empty) is the one transient, retryable install failure. -/
def shouldRetryInstall (exitCode : Int) : Bool :=
  exitCode == 190

/-- Lifts the retry test to the close event's nullable exit code; a null
code (signal termination) never equals 190 in JavaScript. -/
def transientRetry (code : Option Int) : Bool :=
  match code with
  | some c => shouldRetryInstall c
  | none => false

/-- What the close handler at src/index.js lines 88-120 decides to do
next: move on to bin resolution, schedule a retry, or exit the process. -/
inductive InstallStep where
  | proceed
  | retry (nextRetryCount : Nat) (delayMs : Nat)
  | fatalExit (status : Nat)
deriving DecidableEq

/-- Mirrors the close handler at src/index.js lines 88-120: exit code 0
proceeds to executePackageBin; a non-zero code retries with retryCount+1
after 1000 * (retryCount+1) milliseconds when retryCount < 3 and the
code is the transient one, and otherwise exits the process with 1. -/
def installOnClose (retryCount : Nat) (code : Option Int) : InstallStep :=
  if code ≠ some 0 then
    if retryCount < 3 ∧ transientRetry code = true then
      .retry (retryCount + 1) (1000 * (retryCount + 1))
    else .fatalExit 1
  else .proceed

/-- The log line appended by the close handler, abstracted to an event. -/
inductive InstallLogEvent where
  | retrying (code : Option Int)
  | failedFinal (code : Option Int)
  | succeeded
deriving DecidableEq

/-- Which log event the close handler at src/index.js lines 88-120
appends to the install log. -/
def installCloseLog (retryCount : Nat) (code : Option Int) : InstallLogEvent :=
  if code ≠ some 0 then
    if retryCount < 3 ∧ transientRetry code = true then .retrying code
    else .failedFinal code
  else .succeeded

/-- Final outcome of the whole install loop over a list of observed
subprocess exit codes (pending when the list runs out mid-retry). -/
inductive RunOutcome where
  | proceeded
  | exited (status : Nat)
  | pending
deriving DecidableEq

/-- Runs the install loop: each list element is the close code of one
npm attempt; attempts counts every spawn of the npm subprocess. -/
def installRun (retryCount attempts : Nat) :
    List (Option Int) → RunOutcome × Nat
  | [] => (.pending, attempts)
  | c :: rest =>
    match installOnClose retryCount c with
    | .proceed => (.proceeded, attempts)
    | .fatalExit s => (.exited s, attempts)
    | .retry r _ => installRun r (attempts + 1) rest

/-! ## Cleanup on the retry path (src/index.js lines 61-63 and 140-157) -/

/-- The directory cleaned by cleanupNodeModules: src/index.js line 141
joins the install directory with node_modules (the whole tree, not one
package's subdirectory). -/
def nodeModulesPath (installDir : String) : String :=
  pathJoin [installDir, "node_modules"]

/-- Mirrors fs.rmSync with recursive and force options: every file at or
below the directory disappears. -/
def rmSyncRecursiveForce (fs : FileSystem) (d : String) : FileSystem :=
  fs.filter (fun e => !underPath d e.1)

/-- Mirrors src/index.js lines 140-157.  rmSucceeds says whether the
fs.rmSync call throws; a throw is caught, leaves the files in place in
this model, and only appends a cleanup warning to the log (the returned
Boolean). -/
def cleanupNodeModules (rmSucceeds : Bool) (installDir : String)
    (fs : FileSystem) : FileSystem × Bool :=
  if dirExists fs (nodeModulesPath installDir) then
    if rmSucceeds then (rmSyncRecursiveForce fs (nodeModulesPath installDir), false)
    else (fs, true)
  else (fs, false)

/-- Mirrors src/index.js lines 61-63: a retry attempt (retryCount > 0)
first runs cleanupNodeModules; the first attempt touches nothing. -/
def installAttemptCleanup (rmSucceeds : Bool) (installDir : String)
    (retryCount : Nat) (fs : FileSystem) : FileSystem :=
  if 0 < retryCount then (cleanupNodeModules rmSucceeds installDir fs).1 else fs

/-- Modelled from the spec claim's words, for comparison only: delete
just the package tree subdirectory node_modules/<canonical-name> when it
is present.  The source has no such function; its cleanup targets the
whole node_modules directory. -/
def cleanupPackageTreeClaim (installDir canonicalPkgName : String)
    (fs : FileSystem) : FileSystem :=
  if dirExists fs (pathJoin [installDir, "node_modules", canonicalPkgName]) then
    rmSyncRecursiveForce fs (pathJoin [installDir, "node_modules", canonicalPkgName])
  else fs

/-! ## Bin-entry resolution and launch (src/index.js lines 159-243) -/

/-- The manifest's bin field as read from the installed package's
package.json: absent, a single path string, or an object mapping command
names to paths (entries in source iteration order). -/
inductive JsonBin where
  | undef
  | jstr (s : String)
  | jobj (entries : List (String × String))
deriving DecidableEq

/-- Result of extracting the bin path at src/index.js lines 195-205:
a path, the missing-field error branch, or a JavaScript undefined value
flowing into path.join. -/
inductive BinResult where
  | ok (p : String)
  | noBin
  | undefinedPath
deriving DecidableEq

/-- JavaScript object property access on the modelled bin mapping. -/
def jsonLookup (k : String) : List (String × String) → Option String
  | [] => none
  | (k', v) :: es => if k = k' then some v else jsonLookup k es

/-- JavaScript logical-or on possibly-undefined strings: the left value
wins unless it is undefined or the falsy empty string. -/
def jsOrString (a b : Option String) : Option String :=
  match a with
  | some s => if s = "" then b else some s
  | none => b

/-- Mirrors src/index.js lines 195-205: a string bin is used directly;
an object bin takes the entry keyed by the canonical name or else the
first value (JavaScript logical-or, then Object.values()[0]); anything
else is the missing-bin error branch. -/
def getBinPath (actualPackageName : String) (bin : JsonBin) : BinResult :=
  match bin with
  | .jstr s => .ok s
  | .jobj entries =>
    match jsOrString (jsonLookup actualPackageName entries)
        ((entries.map Prod.snd).head?) with
    | some p => .ok p
    | none => .undefinedPath
  | .undef => .noBin

/-- Mirrors src/index.js lines 208-213: the full bin path inside the
installed tree. -/
def fullBinPath (installDir actualPackageName binPath : String) : String :=
  pathJoin [installDir, "node_modules", actualPackageName, binPath]

/-- A child-process spawn request as issued at src/index.js lines
231-233. -/
structure SpawnCall where
  cmd : String
  argv : List String
  stdioInherit : Bool
deriving DecidableEq

/-- Outcome of executePackageBin: one of its error exits, the uncaught
TypeError thrown by path.join on an undefined bin path, or the spawn of
the resolved entry. -/
inductive ExecOutcome where
  | packageNotFound
  | noBinEntry
  | thrownError
  | binFileNotFound
  | launch (child : SpawnCall)
deriving DecidableEq

/-- Mirrors src/index.js lines 159-243.  manifestBin is the bin field of
the installed package's manifest (none when that package.json is absent)
and fileOk stands for fs.existsSync on the full bin path.  An undefined
bin path reaches path.join, which throws an uncaught TypeError. -/
def executePackageBin (installDir packageName : String) (args : List String)
    (manifestBin : Option JsonBin) (fileOk : String → Bool) : ExecOutcome :=
  match manifestBin with
  | none => .packageNotFound
  | some bin =>
    match getBinPath (canonicalName packageName) bin with
    | .noBin => .noBinEntry
    | .undefinedPath => .thrownError
    | .ok binPath =>
      if fileOk (fullBinPath installDir (canonicalName packageName) binPath) then
        .launch
          { cmd := "node"
            argv := fullBinPath installDir (canonicalName packageName) binPath :: args
            stdioInherit := true }
      else .binFileNotFound

/-- Process exit status of each executePackageBin outcome: every error
branch exits with 1 (the explicit process.exit calls, and Node's default
status for the uncaught TypeError); a launch has not exited yet. -/
def exitStatusOf : ExecOutcome → Option Nat
  | .packageNotFound => some 1
  | .noBinEntry => some 1
  | .thrownError => some 1
  | .binFileNotFound => some 1
  | .launch _ => none

/-- Models Node's process.exit applied to the close event's nullable
code: a numeric code is used exactly; a null code (child killed by a
signal) leaves the default status 0. -/
def processExitStatus (code : Option Int) : Int :=
  match code with
  | some c => c
  | none => 0

/-- Mirrors src/index.js lines 235-237: the close handler of the
launched child passes its code straight to process.exit. -/
def childCloseExit (code : Option Int) : Int :=
  processExitStatus code

/-- End-to-end exit status of one invocation, given the install
subprocess close codes, the resolution inputs and the launched child's
close code (none while nothing has terminated the process). -/
def endToEndExit (codes : List (Option Int)) (installDir packageName : String)
    (args : List String) (manifestBin : Option JsonBin)
    (fileOk : String → Bool) (childCode : Option Int) : Option Int :=
  match installRun 0 1 codes with
  | (.proceeded, _) =>
    match executePackageBin installDir packageName args manifestBin fileOk with
    | .launch _ => some (childCloseExit childCode)
    | o => (exitStatusOf o).map Int.ofNat
  | (.exited s, _) => some (Int.ofNat s)
  | (.pending, _) => none

/-! ## Theorems -/

/-- Taking exactly the length of the left list from an append returns it. -/
theorem take_length_append {α : Type} (l₁ l₂ : List α) :
    (l₁ ++ l₂).take l₁.length = l₁ := by
  induction l₁ with
  | nil => rfl
  | cons a t ih => simp [ih]

/-- A character list without an at sign is kept whole by takeWhile. -/
theorem takeWhile_no_at (l : List Char) (h : '@' ∉ l) :
    l.takeWhile (fun ch => ch != '@') = l := by
  induction l with
  | nil => rfl
  | cons a t ih =>
    have ha : (a != '@') = true := by
      simp only [bne_iff_ne, ne_eq]
      exact fun e => h (by simp [e])
    have ht : '@' ∉ t := fun m => h (List.mem_cons_of_mem a m)
    simp [List.takeWhile_cons, ha, ih ht]

/-- takeWhile stops exactly at the first appended at sign. -/
theorem takeWhile_stop_at (l ver : List Char) (h : '@' ∉ l) :
    (l ++ '@' :: ver).takeWhile (fun ch => ch != '@') = l := by
  induction l with
  | nil => simp [List.takeWhile_cons]
  | cons a t ih =>
    have ha : (a != '@') = true := by
      simp only [bne_iff_ne, ne_eq]
      exact fun e => h (by simp [e])
    have ht : '@' ∉ t := fun m => h (List.mem_cons_of_mem a m)
    simp [List.takeWhile_cons, ha, ih ht]

/-- lastIndexOf reports -1 on lists without the character. -/
theorem lastIndexOf_no_at (l : List Char) (h : '@' ∉ l) :
    lastIndexOf '@' l = -1 := by
  induction l with
  | nil => rfl
  | cons a t ih =>
    have ha : a ≠ '@' := fun e => h (by simp [e])
    have ht : '@' ∉ t := fun m => h (List.mem_cons_of_mem a m)
    simp only [lastIndexOf]
    rw [ih ht]
    norm_num [ha]

/-- lastIndexOf finds the appended at sign when nothing follows it. -/
theorem lastIndexOf_append_at (ver : List Char) (hv : '@' ∉ ver) :
    ∀ ys : List Char, lastIndexOf '@' (ys ++ '@' :: ver) = (ys.length : Int) := by
  intro ys
  induction ys with
  | nil =>
    show lastIndexOf '@' ('@' :: ver) = 0
    simp only [lastIndexOf]
    rw [lastIndexOf_no_at ver hv]
    norm_num
  | cons y t ih =>
    show lastIndexOf '@' (y :: (t ++ '@' :: ver)) = ((y :: t).length : Int)
    simp only [lastIndexOf]
    rw [ih]
    simp

/-- Specifiers without an at sign are canonical already. -/
theorem canonicalNameL_no_at (l : List Char) (h : '@' ∉ l) :
    canonicalNameL l = l := by
  have hh : l.head? ≠ some '@' := by
    cases l with
    | nil => simp
    | cons a t =>
      simp only [List.head?_cons, ne_eq, Option.some.injEq]
      exact fun e => h (by simp [e])
  unfold canonicalNameL
  rw [if_neg hh]
  exact takeWhile_no_at l h

/-- An unscoped versioned specifier loses exactly its version suffix. -/
theorem canonicalNameL_name_version (name ver : List Char)
    (hn : '@' ∉ name) (hne : name ≠ []) :
    canonicalNameL (name ++ '@' :: ver) = name := by
  obtain ⟨n0, t, rfl⟩ := List.exists_cons_of_ne_nil hne
  have h0 : n0 ≠ '@' := fun e => hn (by simp [e])
  unfold canonicalNameL
  rw [if_neg (by simp [h0])]
  exact takeWhile_stop_at (n0 :: t) ver hn

/-- A scoped specifier without a version stays whole. -/
theorem canonicalNameL_scoped (rest : List Char) (h : '@' ∉ rest) :
    canonicalNameL ('@' :: rest) = '@' :: rest := by
  unfold canonicalNameL
  rw [if_pos (by simp)]
  rw [show lastIndexOf '@' ('@' :: rest) = 0 from by
    simp only [lastIndexOf]
    rw [lastIndexOf_no_at rest h]
    norm_num]
  norm_num

/-- A scoped versioned specifier loses exactly its version suffix. -/
theorem canonicalNameL_scoped_version (rest ver : List Char) (hv : '@' ∉ ver) :
    canonicalNameL (('@' :: rest) ++ '@' :: ver) = '@' :: rest := by
  have hl : lastIndexOf '@' (('@' :: rest) ++ '@' :: ver)
      = (('@' :: rest).length : Int) := lastIndexOf_append_at ver hv ('@' :: rest)
  unfold canonicalNameL
  rw [if_pos (by simp), hl,
    if_pos (by exact_mod_cast Nat.succ_pos rest.length)]
  have ht : ((('@' :: rest).length : Int)).toNat = ('@' :: rest).length := by simp
  rw [ht]
  exact take_length_append ('@' :: rest) ('@' :: ver)

/-- C1: canonical-name derivation strips exactly the trailing version
suffix for all four specifier forms: a bare name and a scoped name map
to themselves, a versioned name or versioned scoped name loses exactly
its trailing at-sign-version part, never truncating a scope; in
particular the three example specifiers of the claim map as stated. -/
theorem C1_canonical_name (scope name ver : List Char)
    (hs : '@' ∉ scope) (hn : '@' ∉ name) (hv : '@' ∉ ver) (hne : name ≠ []) :
    canonicalNameL name = name
    ∧ canonicalNameL (name ++ '@' :: ver) = name
    ∧ canonicalNameL ('@' :: (scope ++ '/' :: name)) = '@' :: (scope ++ '/' :: name)
    ∧ canonicalNameL ('@' :: (scope ++ '/' :: name) ++ '@' :: ver)
        = '@' :: (scope ++ '/' :: name)
    ∧ canonicalName "@scope/name@1.2.3" = "@scope/name"
    ∧ canonicalName "cowsay@1.6.0" = "cowsay"
    ∧ canonicalName "@scope/name" = "@scope/name" := by
  have hrest : '@' ∉ scope ++ '/' :: name := by
    intro hm
    rcases List.mem_append.1 hm with h | h
    · exact hs h
    · rcases List.mem_cons.1 h with h | h
      · exact absurd h (by decide)
      · exact hn h
  exact ⟨canonicalNameL_no_at name hn,
    canonicalNameL_name_version name ver hn hne,
    canonicalNameL_scoped _ hrest,
    canonicalNameL_scoped_version (scope ++ '/' :: name) ver hv,
    by decide, by decide, by decide⟩

/-- Witness for C1 at the concrete scope, name and version of the claim
examples. -/
theorem C1_canonical_name_witness :
    canonicalNameL "name".data = "name".data
    ∧ canonicalNameL ("name".data ++ '@' :: "1.2.3".data) = "name".data
    ∧ canonicalNameL ('@' :: ("scope".data ++ '/' :: "name".data))
        = '@' :: ("scope".data ++ '/' :: "name".data)
    ∧ canonicalNameL ('@' :: ("scope".data ++ '/' :: "name".data) ++ '@' :: "1.2.3".data)
        = '@' :: ("scope".data ++ '/' :: "name".data)
    ∧ canonicalName "@scope/name@1.2.3" = "@scope/name"
    ∧ canonicalName "cowsay@1.6.0" = "cowsay"
    ∧ canonicalName "@scope/name" = "@scope/name" :=
  C1_canonical_name "scope".data "name".data "1.2.3".data
    (by decide) (by decide) (by decide) (by decide)

/-- Inversion of the retry branch: a retry step happens only for exit
code 190 with retryCount < 3, and carries retryCount + 1 and the linear
backoff delay. -/
theorem installOnClose_retry_inv {r : Nat} {c : Option Int} {r' d : Nat}
    (h : installOnClose r c = .retry r' d) :
    c = some 190 ∧ r < 3 ∧ r' = r + 1 ∧ d = 1000 * (r + 1) := by
  unfold installOnClose at h
  by_cases h0 : c ≠ some 0
  · rw [if_pos h0] at h
    by_cases h1 : r < 3 ∧ transientRetry c = true
    · rw [if_pos h1] at h
      have hc : c = some 190 := by
        obtain ⟨-, ht⟩ := h1
        cases c with
        | none => simp [transientRetry] at ht
        | some x =>
          simp only [transientRetry, shouldRetryInstall, beq_iff_eq] at ht
          simp [ht]
      cases h
      exact ⟨hc, h1.1, rfl, rfl⟩
    · rw [if_neg h1] at h
      simp at h
  · rw [if_neg h0] at h
    simp at h

/-- The attempt counter of the install loop is bounded by the remaining
retry budget. -/
theorem installRun_attempts_le (codes : List (Option Int)) :
    ∀ r a : Nat, r ≤ 3 → (installRun r a codes).2 ≤ a + (3 - r) := by
  induction codes with
  | nil =>
    intro r a _
    simp [installRun]
  | cons c rest ih =>
    intro r a hr
    cases hstep : installOnClose r c with
    | proceed => simp [installRun, hstep]
    | fatalExit s => simp [installRun, hstep]
    | retry r' d =>
      obtain ⟨-, h3, hr', -⟩ := installOnClose_retry_inv hstep
      subst hr'
      calc (installRun r a (c :: rest)).2
          = (installRun (r + 1) (a + 1) rest).2 := by simp [installRun, hstep]
        _ ≤ (a + 1) + (3 - (r + 1)) := ih (r + 1) (a + 1) (by omega)
        _ ≤ a + (3 - r) := by omega

/-- C2: exit code 190 with retryCount < 3 schedules a retry with
retryCount + 1 after 1000 * (retryCount + 1) milliseconds; once
retryCount reaches 3 the same code exits the process with status 1;
every retry step arises only that way, so any run starting from
retryCount 0 spawns the install subprocess at most 4 times (at most 3
retries). -/
theorem C2_install_retry_policy :
    (∀ r : Nat, r < 3 →
      installOnClose r (some 190) = .retry (r + 1) (1000 * (r + 1)))
    ∧ (∀ r : Nat, 3 ≤ r → installOnClose r (some 190) = .fatalExit 1)
    ∧ (∀ (r r' d : Nat) (c : Option Int),
        installOnClose r c = .retry r' d →
        c = some 190 ∧ r < 3 ∧ r' = r + 1 ∧ d = 1000 * (r + 1))
    ∧ (∀ codes : List (Option Int), (installRun 0 1 codes).2 ≤ 4) := by
  refine ⟨?_, ?_, ?_, ?_⟩
  · intro r hr
    unfold installOnClose
    rw [if_pos (by decide), if_pos ⟨hr, rfl⟩]
  · intro r hr
    unfold installOnClose
    rw [if_pos (by decide), if_neg (fun hh => absurd hh.1 (by omega))]
  · intro r r' d c h
    exact installOnClose_retry_inv h
  · intro codes
    simpa using installRun_attempts_le codes 0 1 (by omega)

/-- Witness for C2 at retryCount 0, 3 and 1 and a run of four transient
failures. -/
theorem C2_install_retry_policy_witness :
    installOnClose 0 (some 190) = .retry (0 + 1) (1000 * (0 + 1))
    ∧ installOnClose 3 (some 190) = .fatalExit 1
    ∧ (some (190 : Int) = some 190 ∧ 1 < 3 ∧ 2 = 1 + 1 ∧ 2000 = 1000 * (1 + 1))
    ∧ (installRun 0 1 [some 190, some 190, some 190, some 190]).2 ≤ 4 :=
  ⟨C2_install_retry_policy.1 0 (by decide),
    C2_install_retry_policy.2.1 3 (by decide),
    C2_install_retry_policy.2.2.1 1 2 2000 (some 190) (by decide),
    C2_install_retry_policy.2.2.2 [some 190, some 190, some 190, some 190]⟩

/-- C3: any non-zero install exit code other than 190 exits the process
with status 1 at once, whatever the retryCount, and logs the final
failure line rather than a retry line. -/
theorem C3_nontransient_fatal (r : Nat) (c : Int)
    (h0 : c ≠ 0) (h190 : c ≠ 190) :
    installOnClose r (some c) = .fatalExit 1
    ∧ installCloseLog r (some c) = .failedFinal (some c) := by
  have ht : transientRetry (some c) = false := by
    simp only [transientRetry, shouldRetryInstall]
    simpa using h190
  have hne : (some c : Option Int) ≠ some 0 := by simpa using h0
  constructor
  · unfold installOnClose
    rw [if_pos hne, if_neg (by simp [ht])]
  · unfold installCloseLog
    rw [if_pos hne, if_neg (by simp [ht])]

/-- Witness for C3 at exit code 1 and retryCount 2. -/
theorem C3_nontransient_fatal_witness :
    installOnClose 2 (some 1) = .fatalExit 1
    ∧ installCloseLog 2 (some 1) = .failedFinal (some 1) :=
  C3_nontransient_fatal 2 1 (by decide) (by decide)

/-- A skip-if-exists write preserves the content of every file already
present. -/
theorem lookupFile_writeIfAbsent {p0 t : String} {fs : FileSystem} {p c : String}
    (h : lookupFile p fs = some c) :
    lookupFile p (writeFileSyncIfAbsent p0 t fs) = some c := by
  unfold writeFileSyncIfAbsent
  by_cases h0 : fileExists fs p0
  · rw [if_pos h0]
    exact h
  · rw [if_neg h0]
    simp only [lookupFile]
    by_cases hp : p = p0
    · exfalso
      apply h0
      unfold fileExists
      rw [← hp, h]
      rfl
    · rw [if_neg hp]
      exact h

/-- After a skip-if-exists write, the target file exists. -/
theorem fileExists_writeIfAbsent_self (p0 t : String) (fs : FileSystem) :
    fileExists (writeFileSyncIfAbsent p0 t fs) p0 = true := by
  unfold writeFileSyncIfAbsent
  by_cases h0 : fileExists fs p0
  · rw [if_pos h0]
    exact h0
  · rw [if_neg h0]
    unfold fileExists
    simp [lookupFile]

/-- A skip-if-exists write never removes an existing file. -/
theorem fileExists_writeIfAbsent_mono {p0 t p : String} {fs : FileSystem}
    (h : fileExists fs p = true) :
    fileExists (writeFileSyncIfAbsent p0 t fs) p = true := by
  unfold fileExists at h ⊢
  obtain ⟨c, hc⟩ := Option.isSome_iff_exists.1 h
  rw [lookupFile_writeIfAbsent hc]
  rfl

/-- A skip-if-exists write is the identity when the file exists. -/
theorem writeIfAbsent_no_op {p0 t : String} {fs : FileSystem}
    (h : fileExists fs p0 = true) :
    writeFileSyncIfAbsent p0 t fs = fs := by
  simp [writeFileSyncIfAbsent, h]

/-- A skip-if-exists write creates the file when absent. -/
theorem lookupFile_writeIfAbsent_new {p0 t : String} {fs : FileSystem}
    (h : lookupFile p0 fs = none) :
    lookupFile p0 (writeFileSyncIfAbsent p0 t fs) = some t := by
  unfold writeFileSyncIfAbsent
  rw [if_neg (by unfold fileExists; rw [h]; simp)]
  simp [lookupFile]

/-- A skip-if-exists write leaves every other path untouched. -/
theorem lookupFile_writeIfAbsent_other {p0 t p : String} {fs : FileSystem}
    (hp : p ≠ p0) :
    lookupFile p (writeFileSyncIfAbsent p0 t fs) = lookupFile p fs := by
  unfold writeFileSyncIfAbsent
  by_cases h0 : fileExists fs p0
  · rw [if_pos h0]
  · rw [if_neg h0]
    simp only [lookupFile]
    rw [if_neg hp]

/-- C5: workspace setup never overwrites and is idempotent: every file
already present keeps its exact content across a run (even content that
differs from the defaults), a second run changes nothing, and each seed
file is written with its default content only when absent. -/
theorem C5_workspace_seed (dir : String) (fs : FileSystem) :
    (∀ p c : String, lookupFile p fs = some c →
      lookupFile p (ensureInstallDirectorySilent dir fs) = some c)
    ∧ ensureInstallDirectorySilent dir (ensureInstallDirectorySilent dir fs)
        = ensureInstallDirectorySilent dir fs
    ∧ (lookupFile (pathJoin [dir, "package.json"]) fs = none →
        lookupFile (pathJoin [dir, "package.json"])
          (ensureInstallDirectorySilent dir fs) = some packageJsonContent)
    ∧ (lookupFile (pathJoin [dir, ".npmrc"]) fs = none →
        pathJoin [dir, ".npmrc"] ≠ pathJoin [dir, "package.json"] →
        lookupFile (pathJoin [dir, ".npmrc"])
          (ensureInstallDirectorySilent dir fs) = some npmrcContent) := by
  refine ⟨?_, ?_, ?_, ?_⟩
  · intro p c h
    exact lookupFile_writeIfAbsent (lookupFile_writeIfAbsent h)
  · unfold ensureInstallDirectorySilent ensurePackageJson ensureNpmrc
    have h1 : fileExists
        (writeFileSyncIfAbsent (pathJoin [dir, ".npmrc"]) npmrcContent
          (writeFileSyncIfAbsent (pathJoin [dir, "package.json"])
            packageJsonContent fs))
        (pathJoin [dir, "package.json"]) = true :=
      fileExists_writeIfAbsent_mono
        (fileExists_writeIfAbsent_self (pathJoin [dir, "package.json"])
          packageJsonContent fs)
    have h2 : fileExists
        (writeFileSyncIfAbsent (pathJoin [dir, ".npmrc"]) npmrcContent
          (writeFileSyncIfAbsent (pathJoin [dir, "package.json"])
            packageJsonContent fs))
        (pathJoin [dir, ".npmrc"]) = true :=
      fileExists_writeIfAbsent_self _ _ _
    rw [writeIfAbsent_no_op h1, writeIfAbsent_no_op h2]
  · intro h
    unfold ensureInstallDirectorySilent ensurePackageJson ensureNpmrc
    exact lookupFile_writeIfAbsent (lookupFile_writeIfAbsent_new h)
  · intro h hne
    unfold ensureInstallDirectorySilent ensurePackageJson ensureNpmrc
    exact lookupFile_writeIfAbsent_new
      (by rw [lookupFile_writeIfAbsent_other hne]; exact h)

/-- Witness for C5: a pre-existing manifest with custom content survives
a run unchanged, and a fresh workspace receives the default registry
configuration. -/
theorem C5_workspace_seed_witness :
    lookupFile "/home/user/cloudbase-mcp/package.json"
      (ensureInstallDirectorySilent "/home/user/cloudbase-mcp"
        [("/home/user/cloudbase-mcp/package.json", "custom manifest")])
      = some "custom manifest"
    ∧ lookupFile (pathJoin ["/home/user/cloudbase-mcp", ".npmrc"])
      (ensureInstallDirectorySilent "/home/user/cloudbase-mcp" [])
      = some npmrcContent :=
  ⟨(C5_workspace_seed "/home/user/cloudbase-mcp"
      [("/home/user/cloudbase-mcp/package.json", "custom manifest")]).1
      "/home/user/cloudbase-mcp/package.json" "custom manifest" (by decide),
    (C5_workspace_seed "/home/user/cloudbase-mcp" []).2.2.2
      (by decide) (by decide)⟩

/-- Every file at or below the removed directory is gone after the
recursive force delete. -/
theorem lookupFile_rm_under (nm p : String) (h : underPath nm p = true) :
    ∀ fs : FileSystem, lookupFile p (rmSyncRecursiveForce fs nm) = none := by
  intro fs
  induction fs with
  | nil => rfl
  | cons e t ih =>
    obtain ⟨k, v⟩ := e
    unfold rmSyncRecursiveForce at ih ⊢
    by_cases hk : underPath nm k = true
    · rw [List.filter_cons_of_neg (by simp [hk])]
      exact ih
    · rw [List.filter_cons_of_pos
        (by simp only [Bool.not_eq_true] at hk; simp [hk])]
      simp only [lookupFile]
      rw [if_neg (fun hpk : p = k => hk (hpk ▸ h))]
      exact ih

/-- Every file outside the removed directory keeps its content. -/
theorem lookupFile_rm_not_under (nm p c : String) (hu : underPath nm p = false) :
    ∀ fs : FileSystem, lookupFile p fs = some c →
      lookupFile p (rmSyncRecursiveForce fs nm) = some c := by
  intro fs
  induction fs with
  | nil => intro h; simp [lookupFile] at h
  | cons e t ih =>
    intro h
    obtain ⟨k, v⟩ := e
    simp only [lookupFile] at h
    unfold rmSyncRecursiveForce at ih ⊢
    by_cases hp : p = k
    · subst hp
      rw [if_pos rfl] at h
      rw [List.filter_cons_of_pos (by simp [hu])]
      simp only [lookupFile]
      simpa using h
    · rw [if_neg hp] at h
      by_cases hk : underPath nm k = true
      · rw [List.filter_cons_of_neg (by simp [hk])]
        exact ih h
      · rw [List.filter_cons_of_pos
          (by simp only [Bool.not_eq_true] at hk; simp [hk])]
        simp only [lookupFile]
        rw [if_neg hp]
        exact ih h

/-- When no file lies under the directory, the recursive delete keeps
the whole snapshot. -/
theorem rm_of_not_dirExists {nm : String} {fs : FileSystem}
    (h : dirExists fs nm = false) : rmSyncRecursiveForce fs nm = fs := by
  unfold rmSyncRecursiveForce
  rw [List.filter_eq_self]
  intro e he
  have := (List.any_eq_false.1 h) e he
  simpa using this

/-- C6 counterexample: on a workspace whose node_modules holds only a
different package, the retry-path cleanup (which targets the whole
node_modules directory) does not coincide with the claimed deletion of
just the node_modules/pkg subdirectory: the code empties node_modules,
the claim leaves the other package in place. -/
theorem C6_cleanup_counterexample :
    (cleanupNodeModules true (INSTALL_DIR "/home/user")
        [(pathJoin [INSTALL_DIR "/home/user", "node_modules", "other", "index.js"],
          "x")]).1
      ≠ cleanupPackageTreeClaim (INSTALL_DIR "/home/user") "pkg"
        [(pathJoin [INSTALL_DIR "/home/user", "node_modules", "other", "index.js"],
          "x")]
    ∧ (cleanupNodeModules true (INSTALL_DIR "/home/user")
        [(pathJoin [INSTALL_DIR "/home/user", "node_modules", "other", "index.js"],
          "x")]).1 = [] := by
  exact ⟨by decide, by decide⟩

/-- C6 amended: on the retry path (retryCount > 0), before re-running
the install the pipeline best-effort force-deletes the entire
node_modules directory of the workspace (every installed package tree,
not only the requested package's subdirectory) when it is present:
every file under node_modules is removed and every file outside it is
kept; a cleanup failure leaves the files in place, is logged as a
warning, and does not block the retry. -/
theorem C6_cleanup_amended (dir : String) (fs : FileSystem) (r : Nat) :
    ((cleanupNodeModules true dir fs).1
        = rmSyncRecursiveForce fs (nodeModulesPath dir))
    ∧ (∀ p : String, underPath (nodeModulesPath dir) p = true →
        lookupFile p (cleanupNodeModules true dir fs).1 = none)
    ∧ (∀ p c : String, lookupFile p fs = some c →
        underPath (nodeModulesPath dir) p = false →
        lookupFile p (cleanupNodeModules true dir fs).1 = some c)
    ∧ ((cleanupNodeModules false dir fs).1 = fs)
    ∧ (dirExists fs (nodeModulesPath dir) = true →
        (cleanupNodeModules false dir fs).2 = true)
    ∧ (0 < r →
        installAttemptCleanup true dir r fs = (cleanupNodeModules true dir fs).1)
    ∧ (r = 0 → installAttemptCleanup true dir r fs = fs) := by
  have hrm : (cleanupNodeModules true dir fs).1
      = rmSyncRecursiveForce fs (nodeModulesPath dir) := by
    unfold cleanupNodeModules
    by_cases h : dirExists fs (nodeModulesPath dir) = true
    · rw [if_pos h]
      rfl
    · rw [if_neg h]
      show fs = _
      simp only [Bool.not_eq_true] at h
      exact (rm_of_not_dirExists h).symm
  refine ⟨hrm, ?_, ?_, ?_, ?_, ?_, ?_⟩
  · intro p hp
    rw [hrm]
    exact lookupFile_rm_under _ p hp fs
  · intro p c hc hp
    rw [hrm]
    exact lookupFile_rm_not_under _ p c hp fs hc
  · unfold cleanupNodeModules
    by_cases h : dirExists fs (nodeModulesPath dir) = true
    · rw [if_pos h]
      rfl
    · rw [if_neg h]
  · intro h
    unfold cleanupNodeModules
    rw [if_pos h]
    rfl
  · intro h
    unfold installAttemptCleanup
    rw [if_pos h]
  · intro h
    subst h
    rfl

/-- Witness for C6 amended on a concrete workspace holding one file
inside node_modules and one outside it. -/
theorem C6_cleanup_amended_witness :
    lookupFile "/home/user/cloudbase-mcp/node_modules/other/index.js"
      (cleanupNodeModules true "/home/user/cloudbase-mcp"
        [("/home/user/cloudbase-mcp/node_modules/other/index.js", "x"),
          ("/home/user/cloudbase-mcp/package.json", "m")]).1 = none
    ∧ lookupFile "/home/user/cloudbase-mcp/package.json"
      (cleanupNodeModules true "/home/user/cloudbase-mcp"
        [("/home/user/cloudbase-mcp/node_modules/other/index.js", "x"),
          ("/home/user/cloudbase-mcp/package.json", "m")]).1 = some "m"
    ∧ (cleanupNodeModules false "/home/user/cloudbase-mcp"
        [("/home/user/cloudbase-mcp/node_modules/other/index.js", "x"),
          ("/home/user/cloudbase-mcp/package.json", "m")]).2 = true
    ∧ installAttemptCleanup true "/home/user/cloudbase-mcp" 1
        [("/home/user/cloudbase-mcp/node_modules/other/index.js", "x"),
          ("/home/user/cloudbase-mcp/package.json", "m")]
        = (cleanupNodeModules true "/home/user/cloudbase-mcp"
          [("/home/user/cloudbase-mcp/node_modules/other/index.js", "x"),
            ("/home/user/cloudbase-mcp/package.json", "m")]).1 :=
  ⟨(C6_cleanup_amended "/home/user/cloudbase-mcp"
      [("/home/user/cloudbase-mcp/node_modules/other/index.js", "x"),
        ("/home/user/cloudbase-mcp/package.json", "m")] 1).2.1
      "/home/user/cloudbase-mcp/node_modules/other/index.js" (by decide),
    (C6_cleanup_amended "/home/user/cloudbase-mcp"
      [("/home/user/cloudbase-mcp/node_modules/other/index.js", "x"),
        ("/home/user/cloudbase-mcp/package.json", "m")] 1).2.2.1
      "/home/user/cloudbase-mcp/package.json" "m" (by decide) (by decide),
    (C6_cleanup_amended "/home/user/cloudbase-mcp"
      [("/home/user/cloudbase-mcp/node_modules/other/index.js", "x"),
        ("/home/user/cloudbase-mcp/package.json", "m")] 1).2.2.2.2.1 (by decide),
    (C6_cleanup_amended "/home/user/cloudbase-mcp"
      [("/home/user/cloudbase-mcp/node_modules/other/index.js", "x"),
        ("/home/user/cloudbase-mcp/package.json", "m")] 1).2.2.2.2.2.1
      (by decide)⟩

/-- C4 counterexample: in the mapping with entries bar then foo, the key
foo is present with the empty-string value, but resolution returns the
first enumerated value instead of the keyed one (JavaScript logical-or
treats the empty string as falsy), refuting the claim that a present key
always wins. -/
theorem C4_bin_resolution_counterexample :
    jsonLookup "foo" [("bar", "./b.js"), ("foo", "")] = some ""
    ∧ getBinPath "foo" (.jobj [("bar", "./b.js"), ("foo", "")]) ≠ .ok ""
    ∧ getBinPath "foo" (.jobj [("bar", "./b.js"), ("foo", "")]) = .ok "./b.js" := by
  exact ⟨by decide, by decide, by decide⟩

/-- C4 amended: a string bin resolves to itself joined under the
installed tree; for a mapping, the entry keyed by the canonical name is
used when present with a non-empty value, and the first enumerated value
is used when the key is absent or its value is the empty string; the
claim's concrete examples hold, including the join of the tree path with
a dot-slash relative bin path. -/
theorem C4_bin_resolution_amended (name p v w : String)
    (es : List (String × String)) :
    (getBinPath name (.jstr p) = .ok p)
    ∧ (jsonLookup name es = some v → v ≠ "" →
        getBinPath name (.jobj es) = .ok v)
    ∧ (jsonLookup name es = none → (es.map Prod.snd).head? = some w →
        getBinPath name (.jobj es) = .ok w)
    ∧ (jsonLookup name es = some "" → (es.map Prod.snd).head? = some w →
        getBinPath name (.jobj es) = .ok w)
    ∧ getBinPath "foo" (.jobj [("foo", "./a.js"), ("bar", "./b.js")]) = .ok "./a.js"
    ∧ getBinPath "baz" (.jobj [("foo", "./a.js"), ("bar", "./b.js")]) = .ok "./a.js"
    ∧ fullBinPath "/home/user/cloudbase-mcp" "demo" "./cli.js"
        = "/home/user/cloudbase-mcp/node_modules/demo/cli.js" := by
  refine ⟨rfl, ?_, ?_, ?_, by decide, by decide, by decide⟩
  · intro h hv
    simp [getBinPath, jsOrString, h, hv]
  · intro h hw
    simp [getBinPath, jsOrString, h, hw]
  · intro h hw
    simp [getBinPath, jsOrString, h, hw]

/-- Witness for C4 amended: the keyed non-empty value wins, an absent
key and an empty-string keyed value both fall back to the first value. -/
theorem C4_bin_resolution_amended_witness :
    getBinPath "k" (.jobj [("k", "./x.js"), ("z", "./z.js")]) = .ok "./x.js"
    ∧ getBinPath "q" (.jobj [("k", "./x.js"), ("z", "./z.js")]) = .ok "./x.js"
    ∧ getBinPath "k" (.jobj [("z", "./z.js"), ("k", "")]) = .ok "./z.js" :=
  ⟨(C4_bin_resolution_amended "k" "" "./x.js" ""
      [("k", "./x.js"), ("z", "./z.js")]).2.1 (by decide) (by decide),
    (C4_bin_resolution_amended "q" "" "" "./x.js"
      [("k", "./x.js"), ("z", "./z.js")]).2.2.1 (by decide) (by decide),
    (C4_bin_resolution_amended "k" "" "" "./z.js"
      [("z", "./z.js"), ("k", "")]).2.2.2.1 (by decide) (by decide)⟩

/-- C7 counterexample: an empty bin mapping does not reach the
NoBinEntry diagnostic branch; it produces the undefined bin path that
crashes path.join instead. -/
theorem C7_no_bin_entry_counterexample :
    executePackageBin (INSTALL_DIR "/home/user") "foo" []
        (some (.jobj [])) (fun _ => true) = .thrownError
    ∧ executePackageBin (INSTALL_DIR "/home/user") "foo" []
        (some (.jobj [])) (fun _ => true) ≠ .noBinEntry := by
  exact ⟨rfl, by decide⟩

/-- C7 amended: an absent bin field fails with the NoBinEntry diagnostic
and exit status 1; an empty bin mapping instead makes path.join throw an
uncaught TypeError — still a non-zero (status 1) termination but without
the NoBinEntry diagnostic; an empty-string bin is handled by the string
branch and never reaches the missing-bin error. -/
theorem C7_no_bin_entry_amended (installDir pkg : String)
    (args : List String) (fileOk : String → Bool) :
    executePackageBin installDir pkg args (some .undef) fileOk = .noBinEntry
    ∧ exitStatusOf (executePackageBin installDir pkg args (some .undef) fileOk)
        = some 1
    ∧ executePackageBin installDir pkg args (some (.jobj [])) fileOk
        = .thrownError
    ∧ exitStatusOf (executePackageBin installDir pkg args (some (.jobj [])) fileOk)
        = some 1
    ∧ getBinPath (canonicalName pkg) (.jstr "") = .ok "" :=
  ⟨rfl, rfl, rfl, rfl, rfl⟩

/-- C8: a numeric close code of the launched child is passed through to
process.exit exactly, and end to end a run whose install loop proceeds
and whose resolution launches a child finishes with precisely the
child's exit code. -/
theorem C8_exit_code_propagation :
    (∀ c : Int, childCloseExit (some c) = c)
    ∧ (∀ (codes : List (Option Int)) (installDir pkg : String)
        (args : List String) (manifestBin : Option JsonBin)
        (fileOk : String → Bool) (sp : SpawnCall) (c : Int),
        (installRun 0 1 codes).1 = .proceeded →
        executePackageBin installDir pkg args manifestBin fileOk = .launch sp →
        endToEndExit codes installDir pkg args manifestBin fileOk (some c)
          = some c) := by
  constructor
  · intro c
    rfl
  · intro codes installDir pkg args manifestBin fileOk sp c h1 h2
    unfold endToEndExit
    rcases hr : installRun 0 1 codes with ⟨o, n⟩
    rw [hr] at h1
    simp only at h1
    subst h1
    rw [h2]
    rfl

/-- Witness for C8: one successful install attempt, a string bin, and a
child exiting 42 make the whole pipeline exit 42. -/
theorem C8_exit_code_propagation_witness :
    endToEndExit [some 0] "/home/user/cloudbase-mcp" "demo-tool@2.0.0" ["--help"]
      (some (.jstr "./index.js")) (fun _ => true) (some 42) = some 42 :=
  C8_exit_code_propagation.2 [some 0] "/home/user/cloudbase-mcp"
    "demo-tool@2.0.0" ["--help"] (some (.jstr "./index.js")) (fun _ => true)
    { cmd := "node"
      argv := ["/home/user/cloudbase-mcp/node_modules/demo-tool/index.js",
        "--help"]
      stdioInherit := true }
    42 (by decide) (by decide)

/-- C9: every launch spawns the node interpreter with the resolved full
bin path as first argument followed by the caller's extra arguments in
order, with standard streams inherited; the bin file itself is never the
spawned command. -/
theorem C9_launch_via_node (installDir pkg : String) (args : List String)
    (manifestBin : Option JsonBin) (fileOk : String → Bool) (sp : SpawnCall)
    (h : executePackageBin installDir pkg args manifestBin fileOk = .launch sp) :
    sp.cmd = "node" ∧ sp.stdioInherit = true
    ∧ ∃ binPath : String,
        sp.argv = fullBinPath installDir (canonicalName pkg) binPath :: args := by
  cases manifestBin with
  | none => simp [executePackageBin] at h
  | some bin =>
    cases hg : getBinPath (canonicalName pkg) bin with
    | noBin => simp [executePackageBin, hg] at h
    | undefinedPath => simp [executePackageBin, hg] at h
    | ok bp =>
      by_cases hf : fileOk (fullBinPath installDir (canonicalName pkg) bp) = true
      · simp only [executePackageBin, hg, hf, if_true] at h
        injection h with h3
        subst h3
        exact ⟨rfl, rfl, bp, rfl⟩
      · simp [executePackageBin, hg, hf] at h

/-- Witness for C9 at a concrete resolution producing a launch. -/
theorem C9_launch_via_node_witness :
    (SpawnCall.mk "node"
        ["/home/user/cloudbase-mcp/node_modules/demo/index.js", "-v"] true).cmd
      = "node"
    ∧ (SpawnCall.mk "node"
        ["/home/user/cloudbase-mcp/node_modules/demo/index.js", "-v"] true).stdioInherit
      = true
    ∧ ∃ binPath : String,
        (SpawnCall.mk "node"
          ["/home/user/cloudbase-mcp/node_modules/demo/index.js", "-v"] true).argv
        = fullBinPath "/home/user/cloudbase-mcp" (canonicalName "demo") binPath
            :: ["-v"] :=
  C9_launch_via_node "/home/user/cloudbase-mcp" "demo" ["-v"]
    (some (.jstr "./index.js")) (fun _ => true)
    (SpawnCall.mk "node"
      ["/home/user/cloudbase-mcp/node_modules/demo/index.js", "-v"] true)
    (by decide)

/-- C10: a null close code (child killed by a signal) is passed to
process.exit, whose deterministic fallback terminates the parent with
status 0, not a non-zero status. -/
theorem C10_signal_null_exit_zero :
    childCloseExit none = 0 ∧ processExitStatus none = 0 :=
  ⟨rfl, rfl⟩

end NpmGlobalExec
